import Mathlib

/-!
Verification of the grocery-planning reconciliation pipeline
(`src/grocery_app/streamlit_app.py` and `src/grocery_app/sheet_tools.py`).

Strings are modelled as `List Char`; Python `float` quantities are modelled
as exact rationals `ℚ` (the source performs only parsing, addition,
subtraction, `max` and comparison on them); Python dicts are modelled as
insertion-ordered association lists with overwrite-on-assignment, which is
Python's observable dict behaviour.
-/

namespace MealPlan

abbrev Str := List Char

/-- Python whitespace class: the characters stripped by `str.strip()` and
matched by `\s` (ASCII range; the source data is ASCII). -/
def isPySpace (c : Char) : Bool :=
  c = ' ' || c = '\t' || c = '\n' || c = '\r' || c = '\x0b' || c = '\x0c'

/-- `str.strip()`: drop leading and trailing whitespace. -/
def pyStrip (s : Str) : Str :=
  ((s.dropWhile isPySpace).reverse.dropWhile isPySpace).reverse

/-- `str.lower()` (ASCII case mapping, as in the source's ASCII data). -/
def lowerStr (s : Str) : Str := s.map Char.toLower

/-- `x.lower().strip()`, the key normalisation used by both the aggregator
and the inventory reconciler. -/
def normKey (s : Str) : Str := pyStrip (lowerStr s)

/-! ### Python dict model

Insertion-ordered association list.  Assignment `d[k] = v` overwrites the
entry in place when the key is present, otherwise appends; lookup returns
the entry for the key. -/

def dictInsert {K V : Type} [DecidableEq K] :
    List (K × V) → K → V → List (K × V)
  | [], k, v => [(k, v)]
  | p :: d, k, v => if p.1 = k then (k, v) :: d else p :: dictInsert d k v

def dictFind {K V : Type} [DecidableEq K] :
    List (K × V) → K → Option V
  | [], _ => none
  | p :: d, k => if p.1 = k then some p.2 else dictFind d k

/-! ### Inventory-aware reconciliation (`sheet_tools.generate_inventory_aware_shopping_list`)

The spreadsheet read (`get_inventory`) is an external call; the records it
returns are taken as an input of the model. -/

/-- A required-ingredient dict `{"item": .., "quantity": .., "unit": ..}`. -/
structure Ingredient where
  item : Str
  quantity : ℚ
  unit : Str
deriving DecidableEq

/-- An inventory row as returned by `get_inventory` (the `status` column is
never read by the reconciler and is omitted). -/
structure InventoryRecord where
  item : Str
  quantity : ℚ
  unit : Str
deriving DecidableEq

/-- The value stored in the reconciler's `inventory_lookup` dict. -/
structure AvailEntry where
  quantity : ℚ
  unit : Str
deriving DecidableEq

/-- The `inventory_status` annotation.  The source builds f-strings; we
keep the interpolated values structured, one constructor per format
string: `"Not in inventory"`, `f"Have {q} {u}"`,
`f"Have {q} {u} (different unit)"`. -/
inductive InventoryStatus where
  | NotInInventory
  | Have (availQty : ℚ) (availUnit : Str)
  | HaveDifferentUnit (availQty : ℚ) (availUnit : Str)
deriving DecidableEq

/-- A shopping-list output dict. -/
structure ShoppingEntry where
  item : Str
  quantity : ℚ
  unit : Str
  inventory_status : InventoryStatus
deriving DecidableEq

/-- `inventory_lookup` construction: iterate over the inventory rows,
assigning `lookup[item.lower().strip()] = {quantity, unit}`. -/
def buildInventoryLookup (inv : List InventoryRecord) :
    List (Str × AvailEntry) :=
  inv.foldl (fun d r => dictInsert d (normKey r.item) ⟨r.quantity, r.unit⟩) []

/-- The body of the reconciler's `for ingredient in required_ingredients`
loop: the optional shopping-list entry appended for one ingredient. -/
def reconcileOne (lookup : List (Str × AvailEntry)) (ing : Ingredient) :
    Option ShoppingEntry :=
  match dictFind lookup (normKey ing.item) with
  | some av =>
      if lowerStr av.unit = lowerStr ing.unit then
        -- units match: needed_qty = max(0, required - available),
        -- appended only when needed_qty > 0
        if 0 < max 0 (ing.quantity - av.quantity) then
          some ⟨ing.item, max 0 (ing.quantity - av.quantity), ing.unit,
                .Have av.quantity av.unit⟩
        else
          none
      else
        some ⟨ing.item, ing.quantity, ing.unit,
              .HaveDifferentUnit av.quantity av.unit⟩
  | none =>
      some ⟨ing.item, ing.quantity, ing.unit, .NotInInventory⟩

/-- `generate_inventory_aware_shopping_list`: build the lookup, then append
one optional entry per required ingredient. -/
def generate_inventory_aware_shopping_list (required : List Ingredient)
    (current_inventory : List InventoryRecord) : List ShoppingEntry :=
  let inventory_lookup := buildInventoryLookup current_inventory
  required.foldl
    (fun acc ing =>
      match reconcileOne inventory_lookup ing with
      | some e => acc ++ [e]
      | none => acc)
    []

/-! ### Basic dict lemmas -/

theorem dictFind_insert {K V : Type} [DecidableEq K] (d : List (K × V))
    (k k' : K) (v : V) :
    dictFind (dictInsert d k v) k' =
      if k' = k then some v else dictFind d k' := by
  induction d with
  | nil =>
      by_cases h : k' = k
      · subst h; simp [dictInsert, dictFind]
      · have h2 : ¬ k = k' := fun hh => h hh.symm
        simp [dictInsert, dictFind, h, h2]
  | cons p d ih =>
      by_cases hp : p.1 = k
      · by_cases hk : k' = k
        · subst hk; simp [dictInsert, dictFind, hp]
        · have hpk' : ¬ p.1 = k' := fun h => hk (h ▸ hp)
          have hk2 : ¬ k = k' := fun hh => hk hh.symm
          simp [dictInsert, dictFind, hp, hk, hpk', hk2]
      · by_cases hpk' : p.1 = k'
        · have hk : ¬ k' = k := fun h => hp (h ▸ hpk')
          simp [dictInsert, dictFind, hp, hk, hpk']
        · simp [dictInsert, dictFind, hp, hpk', ih]

/-- The per-ingredient loop body is sensitive to the lookup only through
`dictFind`. -/
theorem reconcileOne_congr (lk lk' : List (Str × AvailEntry))
    (ing : Ingredient)
    (h : dictFind lk (normKey ing.item) = dictFind lk' (normKey ing.item)) :
    reconcileOne lk ing = reconcileOne lk' ing := by
  unfold reconcileOne
  rw [h]

/-- The reconciler's accumulating loop is a `filterMap` of the loop body. -/
theorem reconcile_foldl_eq (lk : List (Str × AvailEntry))
    (req : List Ingredient) (acc : List ShoppingEntry) :
    req.foldl
      (fun acc ing =>
        match reconcileOne lk ing with
        | some e => acc ++ [e]
        | none => acc)
      acc = acc ++ req.filterMap (reconcileOne lk) := by
  induction req generalizing acc with
  | nil => simp
  | cons ing req ih =>
      simp only [List.foldl_cons, List.filterMap_cons]
      cases h : reconcileOne lk ing with
      | none => simp [h, ih]
      | some e => simp [h, ih]

theorem generate_eq_filterMap (req : List Ingredient)
    (inv : List InventoryRecord) :
    generate_inventory_aware_shopping_list req inv =
      req.filterMap (reconcileOne (buildInventoryLookup inv)) := by
  unfold generate_inventory_aware_shopping_list
  rw [reconcile_foldl_eq]
  simp

/-- The lookup keeps only the last inventory row for each normalised item
name. -/
theorem lookup_eq_getLast (inv : List InventoryRecord) (k : Str) :
    dictFind (buildInventoryLookup inv) k =
      ((inv.filter (fun r => normKey r.item == k)).getLast?).map
        (fun r => (⟨r.quantity, r.unit⟩ : AvailEntry)) := by
  induction inv using List.reverseRecOn with
  | nil => simp [buildInventoryLookup, dictFind]
  | append_singleton inv r ih =>
      have hb : buildInventoryLookup (inv ++ [r]) =
          dictInsert (buildInventoryLookup inv) (normKey r.item)
            ⟨r.quantity, r.unit⟩ := by
        simp [buildInventoryLookup, List.foldl_append]
      rw [hb, dictFind_insert]
      by_cases hk : k = normKey r.item
      · subst hk
        simp [List.filter_append, List.getLast?_concat]
      · have hne : ¬ (normKey r.item == k) = true := by
          simp [beq_iff_eq]
          exact fun h => hk h.symm
        simp only [if_neg hk, List.filter_append, List.filter_cons,
          List.filter_nil, hne, Bool.false_eq_true, if_false, List.append_nil]
        exact ih

/-- Every entry emitted by the loop body carries the required ingredient's
original item string. -/
theorem reconcileOne_item (lk : List (Str × AvailEntry)) (ing : Ingredient)
    (e : ShoppingEntry) (he : reconcileOne lk ing = some e) :
    e.item = ing.item := by
  unfold reconcileOne at he
  cases hf : dictFind lk (normKey ing.item) with
  | none => rw [hf] at he; cases he; rfl
  | some av =>
      rw [hf] at he
      simp only [] at he
      by_cases hu : lowerStr av.unit = lowerStr ing.unit
      · rw [if_pos hu] at he
        by_cases hq : 0 < max 0 (ing.quantity - av.quantity)
        · rw [if_pos hq] at he; cases he; rfl
        · rw [if_neg hq] at he; cases he
      · rw [if_neg hu] at he; cases he; rfl

/-- Generic: mapping a projection over a `filterMap` yields a sublist of
the projections of the inputs, when the partial function preserves the
projection. -/
theorem filterMap_map_sublist {α β γ : Type} (f : α → Option β) (g : β → γ)
    (h : α → γ) (H : ∀ a e, f a = some e → g e = h a) (l : List α) :
    List.Sublist ((l.filterMap f).map g) (l.map h) := by
  induction l with
  | nil => simp
  | cons a l ih =>
      simp only [List.filterMap_cons, List.map_cons]
      cases hf : f a with
      | none => exact ih.cons (h a)
      | some e =>
          simp only [List.map_cons]
          rw [H a e hf]
          exact ih.cons₂ (h a)

/-- Units-match case of the loop body, written with the subtraction
exposed: `max(0, d) > 0` iff `d > 0`, and then `max(0, d) = d`. -/
theorem reconcileOne_units_match (lk : List (Str × AvailEntry))
    (ing : Ingredient) (av : AvailEntry)
    (hf : dictFind lk (normKey ing.item) = some av)
    (hu : lowerStr av.unit = lowerStr ing.unit) :
    reconcileOne lk ing =
      if 0 < ing.quantity - av.quantity then
        some ⟨ing.item, ing.quantity - av.quantity, ing.unit,
              .Have av.quantity av.unit⟩
      else none := by
  unfold reconcileOne
  rw [hf]
  simp only []
  rw [if_pos hu]
  by_cases hq : 0 < ing.quantity - av.quantity
  · rw [max_eq_right hq.le, if_pos hq]
  · rw [max_eq_left (not_lt.mp hq), if_neg hq, if_neg (lt_irrefl 0)]

theorem reconcileOne_absent (lk : List (Str × AvailEntry))
    (ing : Ingredient)
    (hf : dictFind lk (normKey ing.item) = none) :
    reconcileOne lk ing =
      some ⟨ing.item, ing.quantity, ing.unit, .NotInInventory⟩ := by
  unfold reconcileOne
  rw [hf]

theorem reconcileOne_unit_mismatch (lk : List (Str × AvailEntry))
    (ing : Ingredient) (av : AvailEntry)
    (hf : dictFind lk (normKey ing.item) = some av)
    (hu : ¬ lowerStr av.unit = lowerStr ing.unit) :
    reconcileOne lk ing =
      some ⟨ing.item, ing.quantity, ing.unit,
            .HaveDifferentUnit av.quantity av.unit⟩ := by
  unfold reconcileOne
  rw [hf]
  simp only []
  rw [if_neg hu]

/-- Claim C1: when the required item is present in the inventory lookup and
the unit strings agree case-insensitively, the reconciler emits an entry
iff `required.quantity - available.quantity > 0`; the emitted entry carries
exactly that difference, the required unit, and status
`Have {available.quantity} {available.unit}`; otherwise the item is
omitted. -/
theorem c1_emit_iff_shortfall (inv : List InventoryRecord)
    (req₁ req₂ : List Ingredient) (ing : Ingredient) (av : AvailEntry)
    (hfind : dictFind (buildInventoryLookup inv) (normKey ing.item) = some av)
    (hunit : lowerStr av.unit = lowerStr ing.unit) :
    generate_inventory_aware_shopping_list (req₁ ++ ing :: req₂) inv =
      generate_inventory_aware_shopping_list req₁ inv ++
        (if 0 < ing.quantity - av.quantity then
          [⟨ing.item, ing.quantity - av.quantity, ing.unit,
            InventoryStatus.Have av.quantity av.unit⟩]
         else []) ++
        generate_inventory_aware_shopping_list req₂ inv := by
  rw [generate_eq_filterMap, generate_eq_filterMap, generate_eq_filterMap,
    List.filterMap_append, List.filterMap_cons,
    reconcileOne_units_match _ _ _ hfind hunit]
  by_cases hq : 0 < ing.quantity - av.quantity
  · simp [hq]
  · simp [hq]

/-- Witness for C1, on the spec's own example: required `{milk,2,liters}`
against inventory `{milk,1,liters}`. -/
theorem c1_emit_iff_shortfall_witness :
    generate_inventory_aware_shopping_list
        ([] ++ (⟨("milk".toList), 2, ("liters".toList)⟩ : Ingredient) :: [])
        [⟨("milk".toList), 1, ("liters".toList)⟩] =
      generate_inventory_aware_shopping_list []
          [⟨("milk".toList), 1, ("liters".toList)⟩] ++
        (if 0 < (2 : ℚ) - 1 then
          [⟨("milk".toList), (2 : ℚ) - 1, ("liters".toList),
            InventoryStatus.Have 1 ("liters".toList)⟩]
         else []) ++
        generate_inventory_aware_shopping_list []
          [⟨("milk".toList), 1, ("liters".toList)⟩] :=
  c1_emit_iff_shortfall [⟨("milk".toList), 1, ("liters".toList)⟩] [] []
    ⟨("milk".toList), 2, ("liters".toList)⟩ ⟨1, ("liters".toList)⟩
    (by decide) (by decide)

/-- Claim C2: an item absent from the lookup is emitted with its full
required quantity and unit and status `Not in inventory`; an item present
with a case-insensitively different unit is emitted with its full required
quantity and unit and the unit-mismatch status — no unit conversion is
applied in either case. -/
theorem c2_full_requirement_on_absent_or_mismatch
    (inv : List InventoryRecord) (req₁ req₂ : List Ingredient)
    (ing : Ingredient) :
    (dictFind (buildInventoryLookup inv) (normKey ing.item) = none →
      generate_inventory_aware_shopping_list (req₁ ++ ing :: req₂) inv =
        generate_inventory_aware_shopping_list req₁ inv ++
          [⟨ing.item, ing.quantity, ing.unit,
            InventoryStatus.NotInInventory⟩] ++
          generate_inventory_aware_shopping_list req₂ inv) ∧
    (∀ av : AvailEntry,
      dictFind (buildInventoryLookup inv) (normKey ing.item) = some av →
      ¬ lowerStr av.unit = lowerStr ing.unit →
      generate_inventory_aware_shopping_list (req₁ ++ ing :: req₂) inv =
        generate_inventory_aware_shopping_list req₁ inv ++
          [⟨ing.item, ing.quantity, ing.unit,
            InventoryStatus.HaveDifferentUnit av.quantity av.unit⟩] ++
          generate_inventory_aware_shopping_list req₂ inv) := by
  constructor
  · intro hfind
    rw [generate_eq_filterMap, generate_eq_filterMap, generate_eq_filterMap,
      List.filterMap_append, List.filterMap_cons,
      reconcileOne_absent _ _ hfind]
    simp
  · intro av hfind hunit
    rw [generate_eq_filterMap, generate_eq_filterMap, generate_eq_filterMap,
      List.filterMap_append, List.filterMap_cons,
      reconcileOne_unit_mismatch _ _ _ hfind hunit]
    simp

/-- Witness for C2: `{milk,2,liters}` against an empty inventory, and
against inventory `{milk,1,gallon}` (unit mismatch). -/
theorem c2_full_requirement_witness :
    (generate_inventory_aware_shopping_list
        ([] ++ (⟨("milk".toList), 2, ("liters".toList)⟩ : Ingredient) :: [])
        [] =
      generate_inventory_aware_shopping_list [] [] ++
        [⟨("milk".toList), 2, ("liters".toList),
          InventoryStatus.NotInInventory⟩] ++
        generate_inventory_aware_shopping_list [] []) ∧
    (generate_inventory_aware_shopping_list
        ([] ++ (⟨("milk".toList), 2, ("liters".toList)⟩ : Ingredient) :: [])
        [⟨("milk".toList), 1, ("gallon".toList)⟩] =
      generate_inventory_aware_shopping_list []
          [⟨("milk".toList), 1, ("gallon".toList)⟩] ++
        [⟨("milk".toList), 2, ("liters".toList),
          InventoryStatus.HaveDifferentUnit 1 ("gallon".toList)⟩] ++
        generate_inventory_aware_shopping_list []
          [⟨("milk".toList), 1, ("gallon".toList)⟩]) :=
  ⟨(c2_full_requirement_on_absent_or_mismatch [] [] []
      ⟨("milk".toList), 2, ("liters".toList)⟩).1 (by decide),
   (c2_full_requirement_on_absent_or_mismatch
      [⟨("milk".toList), 1, ("gallon".toList)⟩] [] []
      ⟨("milk".toList), 2, ("liters".toList)⟩).2
    ⟨1, ("gallon".toList)⟩ (by decide) (by decide)⟩

/-- Claim C8: the inventory lookup resolves duplicate normalised item
names last-writer-wins — the value found is that of the final matching
inventory row — and the reconciler's output depends on the inventory only
through that lookup, so earlier duplicate rows have no effect. -/
theorem c8_last_writer_wins :
    (∀ (inv : List InventoryRecord) (k : Str),
      dictFind (buildInventoryLookup inv) k =
        ((inv.filter (fun r => normKey r.item == k)).getLast?).map
          (fun r => (⟨r.quantity, r.unit⟩ : AvailEntry))) ∧
    (∀ (req : List Ingredient) (inv inv' : List InventoryRecord),
      (∀ k, dictFind (buildInventoryLookup inv) k =
            dictFind (buildInventoryLookup inv') k) →
      generate_inventory_aware_shopping_list req inv =
        generate_inventory_aware_shopping_list req inv') := by
  refine ⟨lookup_eq_getLast, ?_⟩
  intro req inv inv' h
  rw [generate_eq_filterMap, generate_eq_filterMap]
  induction req with
  | nil => rfl
  | cons ing req ih =>
      rw [List.filterMap_cons, List.filterMap_cons, ih,
        reconcileOne_congr _ _ ing (h (normKey ing.item))]

/-- Witness for C8: two inventory rows for `milk`; the lookup holds the
second, and reconciliation agrees with the single-row inventory that keeps
only the last duplicate. -/
theorem c8_last_writer_wins_witness :
    (dictFind
        (buildInventoryLookup
          [⟨("milk".toList), 1, ("liters".toList)⟩,
           ⟨("Milk ".toList), 3, ("bottles".toList)⟩])
        ("milk".toList) =
      ((([⟨("milk".toList), 1, ("liters".toList)⟩,
          ⟨("Milk ".toList), 3, ("bottles".toList)⟩] :
            List InventoryRecord).filter
          (fun r => normKey r.item == ("milk".toList))).getLast?).map
        (fun r => (⟨r.quantity, r.unit⟩ : AvailEntry))) ∧
    (generate_inventory_aware_shopping_list
        [⟨("milk".toList), 2, ("bottles".toList)⟩]
        [⟨("milk".toList), 1, ("liters".toList)⟩,
         ⟨("Milk ".toList), 3, ("bottles".toList)⟩] =
      generate_inventory_aware_shopping_list
        [⟨("milk".toList), 2, ("bottles".toList)⟩]
        [⟨("Milk ".toList), 3, ("bottles".toList)⟩]) :=
  ⟨c8_last_writer_wins.1
      [⟨("milk".toList), 1, ("liters".toList)⟩,
       ⟨("Milk ".toList), 3, ("bottles".toList)⟩] ("milk".toList),
   c8_last_writer_wins.2
      [⟨("milk".toList), 2, ("bottles".toList)⟩]
      [⟨("milk".toList), 1, ("liters".toList)⟩,
       ⟨("Milk ".toList), 3, ("bottles".toList)⟩]
      [⟨("Milk ".toList), 3, ("bottles".toList)⟩]
      (fun k => by
        rw [show buildInventoryLookup
              [⟨("milk".toList), 1, ("liters".toList)⟩,
               ⟨("Milk ".toList), 3, ("bottles".toList)⟩] =
            buildInventoryLookup
              [⟨("Milk ".toList), 3, ("bottles".toList)⟩] from by decide])⟩

/-- Claim C10: the reconciler is a per-ingredient `filterMap`: each
required ingredient contributes at most one entry, output order follows
input order (the output item sequence is a sublist of the input item
sequence), and every emitted entry carries the required ingredient's
original item string. -/
theorem c10_output_shape (req : List Ingredient)
    (inv : List InventoryRecord) :
    generate_inventory_aware_shopping_list req inv =
      req.filterMap (reconcileOne (buildInventoryLookup inv)) ∧
    (generate_inventory_aware_shopping_list req inv).length ≤ req.length ∧
    List.Sublist
      ((generate_inventory_aware_shopping_list req inv).map
        ShoppingEntry.item)
      (req.map Ingredient.item) ∧
    ∀ ing ∈ req, ∀ e : ShoppingEntry,
      reconcileOne (buildInventoryLookup inv) ing = some e →
      e.item = ing.item := by
  refine ⟨generate_eq_filterMap req inv, ?_, ?_, ?_⟩
  · rw [generate_eq_filterMap]
    exact List.length_filterMap_le _ _
  · rw [generate_eq_filterMap]
    exact filterMap_map_sublist _ _ _
      (fun a e he => reconcileOne_item _ _ _ he) req
  · intro ing _ e he
    exact reconcileOne_item _ _ _ he

/-- Witness for C10 at a concrete two-ingredient call. -/
theorem c10_output_shape_witness :
    (generate_inventory_aware_shopping_list
        [⟨("milk".toList), 2, ("liters".toList)⟩,
         ⟨("egg".toList), 6, ("pieces".toList)⟩] [] =
      ([⟨("milk".toList), 2, ("liters".toList)⟩,
        ⟨("egg".toList), 6, ("pieces".toList)⟩] :
          List Ingredient).filterMap
        (reconcileOne (buildInventoryLookup []))) ∧
    (⟨("milk".toList), 2, ("liters".toList),
        InventoryStatus.NotInInventory⟩ : ShoppingEntry).item =
      (⟨("milk".toList), 2, ("liters".toList)⟩ : Ingredient).item :=
  ⟨(c10_output_shape
      [⟨("milk".toList), 2, ("liters".toList)⟩,
       ⟨("egg".toList), 6, ("pieces".toList)⟩] []).1,
   (c10_output_shape
      [⟨("milk".toList), 2, ("liters".toList)⟩,
       ⟨("egg".toList), 6, ("pieces".toList)⟩] []).2.2.2
    ⟨("milk".toList), 2, ("liters".toList)⟩ (by decide)
    ⟨("milk".toList), 2, ("liters".toList),
      InventoryStatus.NotInInventory⟩ (by decide)⟩

/-! ### Aggregation (`streamlit_app.py` summary view, `deduped_ingredients`)

The loop:
```
grouped = defaultdict(lambda: {"quantity": 0.0, "unit": None})
for ing in normalized_ingredients:
    try: qty = float(ing.get("quantity", 0) or 0)
    except Exception: qty = 0.0
    key = (ing["item"].lower().strip(), ing["unit"].lower().strip())
    grouped[key]["quantity"] = float(grouped[key]["quantity"] or 0.0) + qty
    grouped[key]["unit"] = ing["unit"]
deduped_ingredients = [{"item": item, "quantity": d["quantity"], "unit": d["unit"]}
                       for (item, _), d in grouped.items()]
```
-/

/-- The `"quantity"` field of a normalized-ingredient dict as it reaches
the aggregation loop: a JSON number, a missing/`None` value, or a string
(carrying the result of `float(s)` when it parses). -/
inductive QuantityVal where
  | num (q : ℚ)
  | null
  | str (parsed : Option ℚ)
deriving DecidableEq

/-- `try: qty = float(ing.get("quantity", 0) or 0) except Exception: qty = 0.0`.
Missing and falsy values coerce to 0; an unparseable string raises inside
`float` and is caught to 0. -/
def coerceQty : QuantityVal → ℚ
  | .num q => q
  | .null => 0
  | .str none => 0
  | .str (some q) => q

structure NormalizedIngredient where
  item : Str
  quantity : QuantityVal
  unit : Str
deriving DecidableEq

abbrev GroupKey := Str × Str

/-- `key = (ing["item"].lower().strip(), ing["unit"].lower().strip())`. -/
def ingKey (ing : NormalizedIngredient) : GroupKey :=
  (normKey ing.item, normKey ing.unit)

/-- A `grouped` value `{"quantity": .., "unit": ..}`; the `defaultdict`
default has `unit = None`. -/
structure GroupData where
  quantity : ℚ
  unit : Option Str
deriving DecidableEq

/-- One iteration of the aggregation loop.  The source's `isinstance`/`or`
guard on the stored quantity never fires: the stored quantity is always a
number, and `float(x or 0.0)` is the identity on numbers. -/
def groupStep (grouped : List (GroupKey × GroupData))
    (ing : NormalizedIngredient) : List (GroupKey × GroupData) :=
  let data := (dictFind grouped (ingKey ing)).getD ⟨0, none⟩
  dictInsert grouped (ingKey ing)
    ⟨data.quantity + coerceQty ing.quantity, some ing.unit⟩

def grouped_dict (l : List NormalizedIngredient) :
    List (GroupKey × GroupData) :=
  l.foldl groupStep []

/-- An aggregated output dict.  `unit` keeps the `Option` of the
`defaultdict` default, though the loop always overwrites it. -/
structure DedupedIngredient where
  item : Str
  quantity : ℚ
  unit : Option Str
deriving DecidableEq

/-- The `deduped_ingredients` comprehension: one output dict per grouped
key, keeping the key's item component and dropping its unit component. -/
def deduped_ingredients (l : List NormalizedIngredient) :
    List DedupedIngredient :=
  (grouped_dict l).map (fun p => ⟨p.1.1, p.2.quantity, p.2.unit⟩)

/-- The inputs that fall into group `k`, in input order. -/
def contributors (l : List NormalizedIngredient) (k : GroupKey) :
    List NormalizedIngredient :=
  l.filter (fun i => ingKey i == k)

/-- The summed quantity of group `k`. -/
def qtySum (l : List NormalizedIngredient) (k : GroupKey) : ℚ :=
  ((contributors l k).map (fun i => coerceQty i.quantity)).sum

theorem contributors_concat (l : List NormalizedIngredient)
    (x : NormalizedIngredient) (k : GroupKey) :
    contributors (l ++ [x]) k =
      contributors l k ++ if ingKey x = k then [x] else [] := by
  unfold contributors
  rw [List.filter_append]
  by_cases hx : ingKey x = k
  · simp [hx]
  · simp [hx]

theorem qtySum_concat (l : List NormalizedIngredient)
    (x : NormalizedIngredient) (k : GroupKey) :
    qtySum (l ++ [x]) k =
      qtySum l k + if ingKey x = k then coerceQty x.quantity else 0 := by
  unfold qtySum
  rw [contributors_concat]
  by_cases hx : ingKey x = k
  · simp [hx]
  · simp [hx]

/-- Characterisation of the grouped dict: group `k` holds the sum of its
contributors' coerced quantities and the verbatim unit of its last
contributor. -/
theorem grouped_find (l : List NormalizedIngredient) (k : GroupKey) :
    dictFind (grouped_dict l) k =
      ((contributors l k).getLast?).map
        (fun c => (⟨qtySum l k, some c.unit⟩ : GroupData)) := by
  induction l using List.reverseRecOn with
  | nil => simp [grouped_dict, dictFind, contributors]
  | append_singleton l x ih =>
      have hg : grouped_dict (l ++ [x]) = groupStep (grouped_dict l) x := by
        simp [grouped_dict, List.foldl_append]
      rw [hg]
      simp only [groupStep]
      rw [dictFind_insert, contributors_concat, qtySum_concat]
      by_cases hk : k = ingKey x
      · subst hk
        rw [if_pos rfl, ih, if_pos rfl, if_pos rfl, List.getLast?_concat]
        cases hc : (contributors l (ingKey x)).getLast? with
        | none =>
            have h0 : l.filter (fun i => ingKey i == ingKey x) = [] :=
              List.getLast?_eq_none_iff.mp hc
            simp [qtySum, contributors, h0]
        | some c =>
            simp
      · have hxk : ¬ ingKey x = k := fun h => hk h.symm
        rw [if_neg hk, if_neg hxk, if_neg hxk, ih]
        simp

theorem dictInsert_keys {K V : Type} [DecidableEq K]
    (d : List (K × V)) (k : K) (v : V) :
    (dictInsert d k v).map Prod.fst =
      if k ∈ d.map Prod.fst then d.map Prod.fst
      else d.map Prod.fst ++ [k] := by
  induction d with
  | nil => simp [dictInsert]
  | cons p d ih =>
      by_cases hp : p.1 = k
      · simp [dictInsert, hp]
      · have hk : ¬ k = p.1 := fun h => hp h.symm
        by_cases hm : k ∈ d.map Prod.fst
        · simp [dictInsert, hp, hm, hk, ih]
        · simp [dictInsert, hp, hm, hk, ih]

theorem dictFind_eq_none_iff {K V : Type} [DecidableEq K]
    (d : List (K × V)) (k : K) :
    dictFind d k = none ↔ k ∉ d.map Prod.fst := by
  induction d with
  | nil => simp [dictFind]
  | cons p d ih =>
      by_cases hp : p.1 = k
      · simp [dictFind, hp]
      · have hk : ¬ k = p.1 := fun h => hp h.symm
        simp [dictFind, hp, hk, ih]

theorem dictFind_of_mem_nodup {K V : Type} [DecidableEq K]
    (d : List (K × V)) (hd : (d.map Prod.fst).Nodup) (p : K × V)
    (hp : p ∈ d) : dictFind d p.1 = some p.2 := by
  induction d with
  | nil => cases hp
  | cons q d ih =>
      rw [List.map_cons, List.nodup_cons] at hd
      rcases List.mem_cons.mp hp with h | h
      · subst h; simp [dictFind]
      · have hq : ¬ q.1 = p.1 := by
          intro he
          exact hd.1 (he ▸ List.mem_map.mpr ⟨p, h, rfl⟩)
        simp only [dictFind, hq, if_false]
        exact ih hd.2 h

theorem grouped_keys_nodup (l : List NormalizedIngredient) :
    ((grouped_dict l).map Prod.fst).Nodup := by
  induction l using List.reverseRecOn with
  | nil => simp [grouped_dict]
  | append_singleton l x ih =>
      have hg : grouped_dict (l ++ [x]) = groupStep (grouped_dict l) x := by
        simp [grouped_dict, List.foldl_append]
      rw [hg]
      simp only [groupStep]
      rw [dictInsert_keys]
      by_cases hm : ingKey x ∈ (grouped_dict l).map Prod.fst
      · simp [hm, ih]
      · simp [List.nodup_append, hm, ih]

theorem grouped_keys_mem (l : List NormalizedIngredient) (k : GroupKey) :
    k ∈ (grouped_dict l).map Prod.fst ↔ k ∈ l.map ingKey := by
  rw [← not_iff_not, ← dictFind_eq_none_iff, grouped_find]
  constructor
  · intro h
    rw [Option.map_eq_none', List.getLast?_eq_none_iff] at h
    intro hmem
    obtain ⟨i, hi, hik⟩ := List.mem_map.mp hmem
    have : i ∈ contributors l k :=
      List.mem_filter.mpr ⟨hi, by simp [beq_iff_eq, hik]⟩
    rw [h] at this
    cases this
  · intro h
    rw [Option.map_eq_none', List.getLast?_eq_none_iff]
    unfold contributors
    rw [List.filter_eq_nil_iff]
    intro i hi hik
    exact h (List.mem_map.mpr ⟨i, hi, by simpa [beq_iff_eq] using hik⟩)

theorem grouped_keys_perm_dedup (l : List NormalizedIngredient) :
    ((grouped_dict l).map Prod.fst).Perm ((l.map ingKey).dedup) :=
  (List.perm_ext_iff_of_nodup (grouped_keys_nodup l)
      (List.nodup_dedup _)).mpr
    (fun k => by rw [grouped_keys_mem, List.mem_dedup])

/-! Evaluation lemmas for small concrete inputs (Python-float addition is
modelled by `Rat` addition, which the kernel does not reduce, so concrete
runs are evaluated through `simp` arithmetic). -/

theorem deduped_singleton (i : NormalizedIngredient) :
    deduped_ingredients [i] =
      [⟨(ingKey i).1, coerceQty i.quantity, some i.unit⟩] := by
  simp [deduped_ingredients, grouped_dict, groupStep, dictFind, dictInsert]

theorem deduped_pair_same_key (i j : NormalizedIngredient)
    (hk : ingKey j = ingKey i) :
    deduped_ingredients [i, j] =
      [⟨(ingKey i).1, coerceQty i.quantity + coerceQty j.quantity,
        some j.unit⟩] := by
  simp [deduped_ingredients, grouped_dict, groupStep, dictFind, dictInsert,
    hk]

theorem deduped_pair_diff_key (i j : NormalizedIngredient)
    (hk : ¬ ingKey j = ingKey i) :
    deduped_ingredients [i, j] =
      [⟨(ingKey i).1, coerceQty i.quantity, some i.unit⟩,
       ⟨(ingKey j).1, coerceQty j.quantity, some j.unit⟩] := by
  have hk2 : ¬ ingKey i = ingKey j := fun h => hk h.symm
  simp [deduped_ingredients, grouped_dict, groupStep, dictFind, dictInsert,
    hk, hk2]

theorem deduped_triple_same_key (i j m : NormalizedIngredient)
    (hk1 : ingKey j = ingKey i) (hk2 : ingKey m = ingKey i) :
    deduped_ingredients [i, j, m] =
      [⟨(ingKey i).1,
        coerceQty i.quantity + coerceQty j.quantity + coerceQty m.quantity,
        some m.unit⟩] := by
  simp [deduped_ingredients, grouped_dict, groupStep, dictFind, dictInsert,
    hk1, hk2]

/-- Claim C5: aggregation keeps one output entry per distinct
`(item, unit)` key, so entries whose units differ (after lower-casing and
trimming) are never merged; the spec's example yields two entries. -/
theorem c5_no_unit_merging :
    (∀ l : List NormalizedIngredient,
      (deduped_ingredients l).length = ((l.map ingKey).dedup).length) ∧
    deduped_ingredients
        [⟨("onion".toList), .num 1, ("piece".toList)⟩,
         ⟨("onion".toList), .num 1, ("kg".toList)⟩] =
      [⟨("onion".toList), 1, some ("piece".toList)⟩,
       ⟨("onion".toList), 1, some ("kg".toList)⟩] := by
  refine ⟨?_, by rw [deduped_pair_diff_key _ _ (by decide)]; decide⟩
  intro l
  have h1 : (deduped_ingredients l).length =
      ((grouped_dict l).map Prod.fst).length := by
    simp [deduped_ingredients]
  rw [h1, (grouped_keys_perm_dedup l).length_eq]

/-- Claim C9: each aggregated entry's item field is the lower-cased
trimmed key form of its group's item name, and its unit field is the
verbatim unit of the last input that contributed to that key. -/
theorem c9_item_key_unit_verbatim (l : List NormalizedIngredient)
    (e : DedupedIngredient) (he : e ∈ deduped_ingredients l) :
    ∃ k : GroupKey, k ∈ l.map ingKey ∧ e.item = k.1 ∧
      ∃ c, (contributors l k).getLast? = some c ∧
        e.item = normKey c.item ∧ e.unit = some c.unit ∧
        e.quantity = qtySum l k := by
  rw [deduped_ingredients, List.mem_map] at he
  obtain ⟨p, hp, he⟩ := he
  have hfind := dictFind_of_mem_nodup _ (grouped_keys_nodup l) p hp
  rw [grouped_find] at hfind
  cases hc : (contributors l p.1).getLast? with
  | none => rw [hc] at hfind; cases hfind
  | some c =>
      rw [hc] at hfind
      have hp2 : p.2 = ⟨qtySum l p.1, some c.unit⟩ := by
        simpa using hfind.symm
      have hmemc : c ∈ contributors l p.1 := List.mem_of_mem_getLast? hc
      have hmemc' := List.mem_filter.mp hmemc
      have hkeyc : ingKey c = p.1 := by
        simpa [beq_iff_eq] using hmemc'.2
      subst he
      refine ⟨p.1, List.mem_map.mpr ⟨c, hmemc'.1, hkeyc⟩, rfl, c, hc,
        ?_, ?_, ?_⟩
      · show p.1.1 = normKey c.item
        rw [← hkeyc]; rfl
      · show p.2.unit = some c.unit
        rw [hp2]
      · show p.2.quantity = qtySum l p.1
        rw [hp2]

/-- Witness for C9 at a one-element input with mixed case and padding. -/
theorem c9_item_key_unit_verbatim_witness :
    ∃ k : GroupKey,
      k ∈ ([⟨(" Onion ".toList), .num 2, ("Piece".toList)⟩] :
            List NormalizedIngredient).map ingKey ∧
      (⟨("onion".toList), 2, some ("Piece".toList)⟩ :
          DedupedIngredient).item = k.1 ∧
      ∃ c, (contributors
              [⟨(" Onion ".toList), .num 2, ("Piece".toList)⟩]
              k).getLast? = some c ∧
        (⟨("onion".toList), 2, some ("Piece".toList)⟩ :
            DedupedIngredient).item = normKey c.item ∧
        (⟨("onion".toList), 2, some ("Piece".toList)⟩ :
            DedupedIngredient).unit = some c.unit ∧
        (⟨("onion".toList), 2, some ("Piece".toList)⟩ :
            DedupedIngredient).quantity =
          qtySum [⟨(" Onion ".toList), .num 2, ("Piece".toList)⟩] k :=
  c9_item_key_unit_verbatim
    [⟨(" Onion ".toList), .num 2, ("Piece".toList)⟩]
    ⟨("onion".toList), 2, some ("Piece".toList)⟩
    (by rw [deduped_singleton]; decide)

/-- Replace an aggregated entry's verbatim unit by its key form, for
comparison of outputs up to unit case and padding. -/
def normUnitEntry (e : DedupedIngredient) : DedupedIngredient :=
  ⟨e.item, e.quantity, e.unit.map normKey⟩

/-- Up to unit normalisation, the aggregated output is the canonical
per-key list. -/
theorem deduped_norm_canonical (l : List NormalizedIngredient) :
    ((deduped_ingredients l).map normUnitEntry).Perm
      (((l.map ingKey).dedup).map
        (fun k => (⟨k.1, qtySum l k, some k.2⟩ : DedupedIngredient))) := by
  have h1 : (deduped_ingredients l).map normUnitEntry =
      ((grouped_dict l).map Prod.fst).map
        (fun k => (⟨k.1, qtySum l k, some k.2⟩ : DedupedIngredient)) := by
    rw [deduped_ingredients, List.map_map, List.map_map]
    apply List.map_congr_left
    intro p hp
    have hfind := dictFind_of_mem_nodup _ (grouped_keys_nodup l) p hp
    rw [grouped_find] at hfind
    cases hc : (contributors l p.1).getLast? with
    | none => rw [hc] at hfind; cases hfind
    | some c =>
        rw [hc] at hfind
        have hp2 : p.2 = ⟨qtySum l p.1, some c.unit⟩ := by
          simpa using hfind.symm
        have hmemc : c ∈ contributors l p.1 := List.mem_of_mem_getLast? hc
        have hkeyc : ingKey c = p.1 := by
          simpa [beq_iff_eq] using (List.mem_filter.mp hmemc).2
        show normUnitEntry ⟨p.1.1, p.2.quantity, p.2.unit⟩ =
          ⟨p.1.1, qtySum l p.1, some p.1.2⟩
        rw [hp2]
        show (⟨p.1.1, qtySum l p.1, some (normKey c.unit)⟩ :
          DedupedIngredient) = ⟨p.1.1, qtySum l p.1, some p.1.2⟩
        rw [← hkeyc]
        rfl
  rw [h1]
  exact (grouped_keys_perm_dedup l).map _

/-- Counterexample to claim C4 as stated: the two inputs below share the
aggregation key but their verbatim units differ in case, so the two
orders of the same multiset of inputs aggregate to different multisets of
entries. -/
theorem c4_counterexample :
    ([⟨("onion".toList), .num 1, ("Piece".toList)⟩,
      ⟨("Onion".toList), .num 2, ("piece".toList)⟩] :
        List NormalizedIngredient).Perm
      [⟨("Onion".toList), .num 2, ("piece".toList)⟩,
       ⟨("onion".toList), .num 1, ("Piece".toList)⟩] ∧
    deduped_ingredients
        [⟨("onion".toList), .num 1, ("Piece".toList)⟩,
         ⟨("Onion".toList), .num 2, ("piece".toList)⟩] =
      [⟨("onion".toList), 3, some ("piece".toList)⟩] ∧
    deduped_ingredients
        [⟨("Onion".toList), .num 2, ("piece".toList)⟩,
         ⟨("onion".toList), .num 1, ("Piece".toList)⟩] =
      [⟨("onion".toList), 3, some ("Piece".toList)⟩] ∧
    ¬ (deduped_ingredients
        [⟨("onion".toList), .num 1, ("Piece".toList)⟩,
         ⟨("Onion".toList), .num 2, ("piece".toList)⟩]).Perm
      (deduped_ingredients
        [⟨("Onion".toList), .num 2, ("piece".toList)⟩,
         ⟨("onion".toList), .num 1, ("Piece".toList)⟩]) := by
  have h1 : deduped_ingredients
      [⟨("onion".toList), .num 1, ("Piece".toList)⟩,
       ⟨("Onion".toList), .num 2, ("piece".toList)⟩] =
      [⟨("onion".toList), 3, some ("piece".toList)⟩] := by
    rw [deduped_pair_same_key _ _ (by decide)]
    norm_num [coerceQty]
    decide
  have h2 : deduped_ingredients
      [⟨("Onion".toList), .num 2, ("piece".toList)⟩,
       ⟨("onion".toList), .num 1, ("Piece".toList)⟩] =
      [⟨("onion".toList), 3, some ("Piece".toList)⟩] := by
    rw [deduped_pair_same_key _ _ (by decide)]
    norm_num [coerceQty]
    decide
  refine ⟨by decide, h1, h2, ?_⟩
  rw [h1, h2]
  decide

/-- Claim C4 (amended): aggregation is order-insensitive up to the case
and padding of the verbatim unit field: permuting the input permutes the
outputs once units are normalised; quantities per key are summed with
missing/null/unparseable quantities coerced to 0, as the concrete
conjuncts show. -/
theorem c4_perm_invariant_up_to_unit_case :
    (∀ l₁ l₂ : List NormalizedIngredient, l₁.Perm l₂ →
      ((deduped_ingredients l₁).map normUnitEntry).Perm
        ((deduped_ingredients l₂).map normUnitEntry)) ∧
    deduped_ingredients
        [⟨("onion".toList), .num 1, ("piece".toList)⟩,
         ⟨("Onion".toList), .num 2, ("piece".toList)⟩] =
      [⟨("onion".toList), 3, some ("piece".toList)⟩] ∧
    deduped_ingredients
        [⟨("Onion".toList), .num 2, ("piece".toList)⟩,
         ⟨("onion".toList), .num 1, ("piece".toList)⟩] =
      [⟨("onion".toList), 3, some ("piece".toList)⟩] ∧
    deduped_ingredients
        [⟨("onion".toList), .null, ("piece".toList)⟩,
         ⟨("onion".toList), .str none, ("piece".toList)⟩,
         ⟨("onion".toList), .num 2, ("piece".toList)⟩] =
      [⟨("onion".toList), 2, some ("piece".toList)⟩] := by
  refine ⟨?_,
    by rw [deduped_pair_same_key _ _ (by decide)]
       norm_num [coerceQty]
       decide,
    by rw [deduped_pair_same_key _ _ (by decide)]
       norm_num [coerceQty]
       decide,
    by rw [deduped_triple_same_key _ _ _ (by decide) (by decide)]
       norm_num [coerceQty]
       decide⟩
  intro l₁ l₂ h
  have hq : (fun k : GroupKey =>
      (⟨k.1, qtySum l₁ k, some k.2⟩ : DedupedIngredient)) =
      (fun k => ⟨k.1, qtySum l₂ k, some k.2⟩) := by
    funext k
    have hs : qtySum l₁ k = qtySum l₂ k :=
      List.Perm.sum_eq ((h.filter _).map _)
    rw [hs]
  have step2 : (((l₁.map ingKey).dedup).map
      (fun k : GroupKey =>
        (⟨k.1, qtySum l₁ k, some k.2⟩ : DedupedIngredient))).Perm
      (((l₂.map ingKey).dedup).map
        (fun k => (⟨k.1, qtySum l₁ k, some k.2⟩ : DedupedIngredient))) :=
    ((h.map ingKey).dedup).map _
  nth_rewrite 2 [hq] at step2
  exact (deduped_norm_canonical l₁).trans
    (step2.trans (deduped_norm_canonical l₂).symm)

/-- Witness for C4 (amended), on the counterexample's input pair. -/
theorem c4_perm_invariant_witness :
    ((deduped_ingredients
        [⟨("onion".toList), .num 1, ("Piece".toList)⟩,
         ⟨("Onion".toList), .num 2, ("piece".toList)⟩]).map
      normUnitEntry).Perm
      ((deduped_ingredients
        [⟨("Onion".toList), .num 2, ("piece".toList)⟩,
         ⟨("onion".toList), .num 1, ("Piece".toList)⟩]).map
        normUnitEntry) :=
  c4_perm_invariant_up_to_unit_case.1
    [⟨("onion".toList), .num 1, ("Piece".toList)⟩,
     ⟨("Onion".toList), .num 2, ("piece".toList)⟩]
    [⟨("Onion".toList), .num 2, ("piece".toList)⟩,
     ⟨("onion".toList), .num 1, ("Piece".toList)⟩]
    (by decide)

/-! ### OpenAI normalisation (`streamlit_app.normalize_ingredient_openai`)

The completion call and the JSON decoder are effects at the model
boundary and are passed in as functions: `call` maps the ingredient
phrase to either a raised exception or the response message content, and
`loads` maps the response text to the decoded dict, `none` when
`json.loads` raises.  In the source, ONLY the `json.loads` call is inside
the `try/except`; `client.chat.completions.create` sits before it,
outside any handler, so an exception it raises leaves the function. -/

/-- Outcome of `client.chat.completions.create(...)` for one phrase:
either an exception, or a message whose `content` may be `None`. -/
inductive CallResult where
  | error
  | success (content : Option Str)
deriving DecidableEq

/-- `text = content.strip() if content is not None else ""`. -/
def responseText : Option Str → Str
  | some t => pyStrip t
  | none => []

/-- `normalize_ingredient_openai`: `Except.error` models an uncaught
exception propagating to the caller; the `except` branch of the source
returns the fallback `{"item": ingredient_str, "quantity": 1,
"unit": "piece"}`. -/
def normalize_ingredient_openai (call : Str → CallResult)
    (loads : Str → Option NormalizedIngredient) (ingredient_str : Str) :
    Except Unit NormalizedIngredient :=
  match call ingredient_str with
  | .error => .error ()
  | .success content =>
      match loads (responseText content) with
      | some d => .ok d
      | none => .ok ⟨ingredient_str, .num 1, ("piece".toList)⟩

/-- `normalize_ingredients_openai`: the list comprehension
`[normalize_ingredient_openai(ing, key) for ing in ingredient_strings]`,
evaluated left to right; the first uncaught exception aborts the batch. -/
def normalize_ingredients_openai (call : Str → CallResult)
    (loads : Str → Option NormalizedIngredient) :
    List Str → Except Unit (List NormalizedIngredient)
  | [] => .ok []
  | s :: rest =>
      match normalize_ingredient_openai call loads s with
      | .error e => .error e
      | .ok d =>
          match normalize_ingredients_openai call loads rest with
          | .error e => .error e
          | .ok ds => .ok (d :: ds)

/-- A completion call that raises (e.g. a network error) on `"milk"` and
answers normally otherwise. -/
def callErrOnMilk : Str → CallResult :=
  fun s => if s = ("milk".toList) then .error
           else .success (some ("not json".toList))

/-- A decoder on which `json.loads` always raises (free-text response). -/
def loadsAlwaysRaises : Str → Option NormalizedIngredient := fun _ => none

/-- A completion call that always returns an empty message. -/
def callAlwaysEmpty : Str → CallResult := fun _ => .success none

/-- Counterexample to claim C3 as stated: an error in the external call
for `"milk"` is NOT turned into the fallback value — it propagates as an
exception and aborts normalization of the remaining ingredient `"egg"`
(which on its own would normalise to the fallback). -/
theorem c3_counterexample :
    normalize_ingredients_openai callErrOnMilk loadsAlwaysRaises
        [("milk".toList), ("egg".toList)] = Except.error () ∧
    normalize_ingredient_openai callErrOnMilk loadsAlwaysRaises
        ("egg".toList) =
      Except.ok ⟨("egg".toList), .num 1, ("piece".toList)⟩ :=
  ⟨rfl, rfl⟩

/-- Claim C3 (amended): per-ingredient failure isolation holds for
response-parsing errors only — when the external call itself raises for
no ingredient of the batch, normalization returns one result per input,
each ingredient whose response fails to parse contributing exactly the
fallback `{item: original_phrase, quantity: 1, unit: "piece"}`; an error
raised by the external call itself propagates as an exception. -/
theorem c3_parse_failure_isolated (call : Str → CallResult)
    (loads : Str → Option NormalizedIngredient) (strs : List Str)
    (h : ∀ s ∈ strs, call s ≠ CallResult.error) :
    ∃ out : List NormalizedIngredient,
      normalize_ingredients_openai call loads strs = Except.ok out ∧
      List.Forall₂ (fun s d =>
        Except.ok d = normalize_ingredient_openai call loads s ∧
        ∀ content, call s = CallResult.success content →
          loads (responseText content) = none →
          d = ⟨s, .num 1, ("piece".toList)⟩) strs out := by
  induction strs with
  | nil => exact ⟨[], rfl, List.Forall₂.nil⟩
  | cons s rest ih =>
      obtain ⟨out, hout, hfa⟩ :=
        ih (fun x hx => h x (List.mem_cons_of_mem s hx))
      have hs := h s (List.mem_cons_self s rest)
      cases hc : call s with
      | error => exact absurd hc hs
      | success content =>
          cases hl : loads (responseText content) with
          | some d =>
              refine ⟨d :: out, ?_, List.Forall₂.cons ⟨?_, ?_⟩ hfa⟩
              · simp [normalize_ingredients_openai,
                  normalize_ingredient_openai, hc, hl, hout]
              · simp [normalize_ingredient_openai, hc, hl]
              · intro content' hc' hl'
                rw [hc'] at hc
                cases hc
                rw [hl'] at hl
                cases hl
          | none =>
              refine ⟨⟨s, .num 1, ("piece".toList)⟩ :: out, ?_,
                List.Forall₂.cons ⟨?_, ?_⟩ hfa⟩
              · simp [normalize_ingredients_openai,
                  normalize_ingredient_openai, hc, hl, hout]
              · simp [normalize_ingredient_openai, hc, hl]
              · intro content' hc' hl'
                rfl

/-- Witness for C3 (amended): every call succeeds with an unparseable
response, so every ingredient falls back, none aborts. -/
theorem c3_parse_failure_isolated_witness :
    ∃ out : List NormalizedIngredient,
      normalize_ingredients_openai callAlwaysEmpty loadsAlwaysRaises
          [("milk".toList), ("egg".toList)] = Except.ok out ∧
      List.Forall₂ (fun s d =>
        Except.ok d =
          normalize_ingredient_openai callAlwaysEmpty loadsAlwaysRaises s ∧
        ∀ content, callAlwaysEmpty s = CallResult.success content →
          loadsAlwaysRaises (responseText content) = none →
          d = ⟨s, .num 1, ("piece".toList)⟩)
        [("milk".toList), ("egg".toList)] out :=
  c3_parse_failure_isolated callAlwaysEmpty loadsAlwaysRaises
    [("milk".toList), ("egg".toList)] (by decide)

/-! ### Ingredient phrase parser (`streamlit_app.parse_ingredient_string`)

The source strips the phrase and matches it against

`^(\d+(?:\.\d+)?)\s*(cups?|tablespoons?|teaspoons?|pounds?|lbs?|grams?|g|kilograms?|kg|ounces?|oz|pieces?|cloves?|bottles?|cans?|packets?|bunches?|heads?)\s+(.+)$`

with `re.IGNORECASE`, then against the same shape with a singular-only
alternation, and falls back to `{item: stripped phrase, quantity: 1,
unit: "piece"}`.  The matcher below implements this regex directly.
Backtracking never changes the number part: no later regex element can
match a digit or the dot, so the greedy `\d+(?:\.\d+)?` is exact, and
`\s*` is exact because no later element matches whitespace.  The
alternation is tried left to right; the greedy plural `s?` is tried with
the `s` first, backtracking into `\s+(.+)$`. -/

/-- Match `(\d+(?:\.\d+)?)` at the start: the digit run, then the
optional fraction, taken exactly when a dot with at least one digit
follows.  Returns the matched text and the rest. -/
def matchNumber (cs : Str) : Option (Str × Str) :=
  let d1 := cs.takeWhile Char.isDigit
  let r1 := cs.dropWhile Char.isDigit
  if d1.isEmpty then none
  else
    match r1 with
    | '.' :: r2 =>
        let d2 := r2.takeWhile Char.isDigit
        if d2.isEmpty then some (d1, r1)
        else some (d1 ++ '.' :: d2, r2.dropWhile Char.isDigit)
    | _ => some (d1, r1)

/-- Match `\s+(.+)$` (`.` does not match a newline).  The argument is a
suffix of a stripped phrase, so it never ends in whitespace and `$` is
exactly the end of the string. -/
def matchTail (cs : Str) : Option Str :=
  let ws := cs.takeWhile isPySpace
  let rest := cs.dropWhile isPySpace
  if ws.isEmpty then none
  else if rest.isEmpty then none
  else if rest.any (fun c => c = '\n') then none
  else some rest

/-- Case-insensitive literal prefix match; the stems are lower-case ASCII
and `re.IGNORECASE` compares after lower-casing. -/
def stripPrefixCI : Str → Str → Option Str
  | [], cs => some cs
  | _ :: _, [] => none
  | a :: st, c :: cs =>
      if c.toLower = a then stripPrefixCI st cs else none

/-- One alternation branch: the stem, an optional plural `s` when
`plural` (greedy, backtracking into the tail), then `\s+(.+)$`.  Returns
the matched unit text lower-cased (i.e. the stem, plus `s` when taken)
and the item group. -/
def matchUnitAlt (stem : Str) (plural : Bool) (cs : Str) :
    Option (Str × Str) :=
  match stripPrefixCI stem cs with
  | none => none
  | some rest =>
      match
        (if plural then
          match rest with
          | c :: rest2 =>
              if c.toLower = 's' then
                match matchTail rest2 with
                | some item => some (stem ++ ['s'], item)
                | none => none
              else none
          | [] => none
        else none)
      with
      | some r => some r
      | none =>
          match matchTail rest with
          | some item => some (stem, item)
          | none => none

/-- Left-to-right alternation. -/
def matchUnits : List (Str × Bool) → Str → Option (Str × Str)
  | [], _ => none
  | (stem, plural) :: alts, cs =>
      match matchUnitAlt stem plural cs with
      | some r => some r
      | none => matchUnits alts cs

/-- The first pattern's alternation, in source order (`true` marks an
optional plural `s`).  Note `bunches?` is the literal stem `bunche` plus
an optional `s`: the first pattern matches `bunches` and `bunche` but not
`bunch`, which only the second pattern accepts. -/
def unitAlts1 : List (Str × Bool) :=
  [(("cup".toList), true), (("tablespoon".toList), true),
   (("teaspoon".toList), true), (("pound".toList), true),
   (("lb".toList), true), (("gram".toList), true), (("g".toList), false),
   (("kilogram".toList), true), (("kg".toList), false),
   (("ounce".toList), true), (("oz".toList), false),
   (("piece".toList), true), (("clove".toList), true),
   (("bottle".toList), true), (("can".toList), true),
   (("packet".toList), true), (("bunche".toList), true),
   (("head".toList), true)]

/-- The second pattern's singular-only alternation. -/
def unitAlts2 : List (Str × Bool) :=
  [(("cup".toList), false), (("tablespoon".toList), false),
   (("teaspoon".toList), false), (("pound".toList), false),
   (("lb".toList), false), (("gram".toList), false),
   (("kilogram".toList), false), (("ounce".toList), false),
   (("piece".toList), false), (("clove".toList), false),
   (("bottle".toList), false), (("can".toList), false),
   (("packet".toList), false), (("bunch".toList), false),
   (("head".toList), false)]

/-- The anchored pattern: number, `\s*`, unit alternation, `\s+(.+)$`. -/
def matchPattern (alts : List (Str × Bool)) (cs : Str) :
    Option (Str × Str × Str) :=
  match matchNumber cs with
  | none => none
  | some (numText, rest) =>
      match matchUnits alts (rest.dropWhile isPySpace) with
      | some (unitText, item) => some (numText, unitText, item)
      | none => none

/-- One match of `\s*\([^)]*\)`: optional whitespace, `(`, everything up
to the first `)` (the greedy `[^)]*` stops there and the `)` closes the
match).  Returns the rest after the match. -/
def tryParenMatch (cs : Str) : Option Str :=
  match cs.dropWhile isPySpace with
  | '(' :: r2 =>
      match r2.dropWhile (fun c => c != ')') with
      | ')' :: r4 => some r4
      | _ => none
  | _ => none

/-- `re.sub(r'\s*\([^)]*\)', '', item)`: scan left to right, removing
each leftmost match and resuming after it, else advancing one character.
Fueled recursion: each step consumes at least one character, so
`cs.length` steps suffice and the fuel-exhaustion arm is unreachable. -/
def removeParensAux : Nat → Str → Str
  | 0, _ => []
  | _ + 1, [] => []
  | fuel + 1, c :: cs =>
      match tryParenMatch (c :: cs) with
      | some rest => removeParensAux fuel rest
      | none => c :: removeParensAux fuel cs

def removeParens (cs : Str) : Str := removeParensAux cs.length cs

/-- `re.sub(r'\s+', ' ', item)`: each maximal whitespace run becomes one
space.  Fueled like `removeParensAux`. -/
def collapseWSAux : Nat → Str → Str
  | 0, _ => []
  | _ + 1, [] => []
  | fuel + 1, c :: cs =>
      if isPySpace c then
        ' ' :: collapseWSAux fuel (cs.dropWhile isPySpace)
      else c :: collapseWSAux fuel cs

def collapseWS (cs : Str) : Str := collapseWSAux cs.length cs

/-- The item clean-up applied to `match.group(3)`:
`.strip()`, remove parentheticals, `.strip()`, collapse whitespace,
`.strip()`. -/
def cleanupItem (item : Str) : Str :=
  pyStrip (collapseWS (pyStrip (removeParens (pyStrip item))))

/-- Decimal digit run as a number. -/
def digitsToNat (ds : Str) : Nat :=
  ds.foldl (fun n c => 10 * n + (c.toNat - ('0').toNat)) 0

/-- `float(match.group(1))` for a string matched by `\d+(\.\d+)?`, as an
exact rational. -/
def floatOfMatch (s : Str) : ℚ :=
  let intPart := s.takeWhile Char.isDigit
  match s.dropWhile Char.isDigit with
  | '.' :: frac =>
      (digitsToNat intPart : ℚ) +
        (digitsToNat frac : ℚ) / ((10 : ℚ) ^ frac.length)
  | _ => (digitsToNat intPart : ℚ)

/-- `parse_ingredient_string`. -/
def parse_ingredient_string (s : Str) : Ingredient :=
  let stripped := pyStrip s
  match matchPattern unitAlts1 stripped with
  | some (numText, unitText, item) =>
      ⟨cleanupItem item, floatOfMatch numText, unitText⟩
  | none =>
      match matchPattern unitAlts2 stripped with
      | some (numText, unitText, item) =>
          ⟨cleanupItem item, floatOfMatch numText, unitText⟩
      | none => ⟨stripped, 1, ("piece".toList)⟩

/-- `parse_ingredients_to_dicts`: parse each string, appending only
results with a non-empty item (`if parsed["item"]`). -/
def parse_ingredients_to_dicts (l : List Str) : List Ingredient :=
  l.foldl
    (fun acc s =>
      let parsed := parse_ingredient_string s
      if parsed.item = [] then acc else acc ++ [parsed])
    []

/-- The appending loop of `parse_ingredients_to_dicts` only ever appends
results with a non-empty item. -/
theorem parse_fold_nonempty (l : List Str) (acc : List Ingredient)
    (hacc : ∀ p ∈ acc, ¬ p.item = []) :
    ∀ p ∈ l.foldl
        (fun acc s =>
          let parsed := parse_ingredient_string s
          if parsed.item = [] then acc else acc ++ [parsed])
        acc, ¬ p.item = [] := by
  induction l generalizing acc with
  | nil => exact hacc
  | cons s l ih =>
      simp only [List.foldl_cons]
      by_cases hi : (parse_ingredient_string s).item = []
      · simp only [hi, if_pos rfl]
        exact ih acc hacc
      · simp only [if_neg hi]
        refine ih _ ?_
        intro p hp
        rcases List.mem_append.mp hp with h | h
        · exact hacc p h
        · rcases List.mem_singleton.mp h with rfl
          exact hi

/-- Claim C7: the parser is total (modelled as a total function); when
neither pattern matches the stripped input it returns the fallback
`{item: stripped phrase, quantity: 1, unit: "piece"}` — e.g. on
`"paneer"` and on the empty string — and `parse_ingredients_to_dicts`
discards every result whose item is empty. -/
theorem c7_fallback_and_discard :
    (∀ s : Str, matchPattern unitAlts1 (pyStrip s) = none →
      matchPattern unitAlts2 (pyStrip s) = none →
      parse_ingredient_string s = ⟨pyStrip s, 1, ("piece".toList)⟩) ∧
    parse_ingredient_string ("paneer".toList) =
      ⟨("paneer".toList), 1, ("piece".toList)⟩ ∧
    parse_ingredient_string [] = ⟨[], 1, ("piece".toList)⟩ ∧
    ∀ l : List Str, ∀ p ∈ parse_ingredients_to_dicts l, ¬ p.item = [] := by
  refine ⟨?_, by decide, by decide, ?_⟩
  · intro s h1 h2
    simp [parse_ingredient_string, h1, h2]
  · intro l
    exact parse_fold_nonempty l [] (by intro p hp; cases hp)

/-- Witness for C7 on the spec's `"paneer"` example: neither pattern
matches, so the fallback is returned. -/
theorem c7_fallback_and_discard_witness :
    parse_ingredient_string ("paneer".toList) =
      ⟨pyStrip ("paneer".toList), 1, ("piece".toList)⟩ :=
  c7_fallback_and_discard.1 ("paneer".toList) (by decide) (by decide)

/-! ### Lemmas for well-formed `"<number> <unit> <item>"` phrases -/

theorem takeWhile_dropWhile_append {p : Char → Bool} (xs ys : Str)
    (hx : ∀ c ∈ xs, p c = true)
    (hy : ∀ c, ys.head? = some c → p c = false) :
    (xs ++ ys).takeWhile p = xs ∧ (xs ++ ys).dropWhile p = ys := by
  induction xs with
  | nil =>
      cases ys with
      | nil => simp
      | cons b ys =>
          have hb := hy b rfl
          simp [List.takeWhile_cons, List.dropWhile_cons, hb]
  | cons a xs ih =>
      have ha := hx a (List.mem_cons_self a xs)
      have ih' := ih (fun c hc => hx c (List.mem_cons_of_mem a hc))
      simp [List.takeWhile_cons, List.dropWhile_cons, ha, ih'.1, ih'.2]

theorem isPySpace_eq_false_of_isDigit (c : Char)
    (h : c.isDigit = true) : isPySpace c = false := by
  by_contra hc
  rw [Bool.not_eq_false] at hc
  simp only [isPySpace, Bool.or_eq_true, decide_eq_true_eq] at hc
  rcases hc with ((((rfl | rfl) | rfl) | rfl) | rfl) | rfl <;>
    exact absurd h (by decide)

theorem pyStrip_eq_self (cs : Str)
    (hh : ∀ c, cs.head? = some c → isPySpace c = false)
    (hl : ∀ c, cs.getLast? = some c → isPySpace c = false) :
    pyStrip cs = cs := by
  have h1 : cs.dropWhile isPySpace = cs := by
    cases cs with
    | nil => rfl
    | cons a l => rw [List.dropWhile_cons, hh a rfl]; simp
  rw [pyStrip, h1]
  have h2 : cs.reverse.dropWhile isPySpace = cs.reverse := by
    cases hr : cs.reverse with
    | nil => rfl
    | cons a l =>
        have ha : cs.getLast? = some a := by
          rw [← List.head?_reverse, hr]; rfl
        rw [List.dropWhile_cons, hl a ha]; simp
  rw [h2, List.reverse_reverse]

theorem pyStrip_dropWhile (cs : Str) :
    pyStrip (cs.dropWhile isPySpace) = pyStrip cs := by
  rw [pyStrip, pyStrip, List.dropWhile_idempotent]

theorem cleanupItem_dropWhile (cs : Str) :
    cleanupItem (cs.dropWhile isPySpace) = cleanupItem cs := by
  rw [cleanupItem, cleanupItem, pyStrip_dropWhile]

/-- The text of the decimal literal `d1[.d2]`. -/
def numberText (d1 d2 : Str) : Str :=
  d1 ++ if d2 = [] then [] else '.' :: d2

/-- The exact value of the decimal literal `d1[.d2]`. -/
def decimalValue (d1 d2 : Str) : ℚ :=
  (digitsToNat d1 : ℚ) + (digitsToNat d2 : ℚ) / (10 : ℚ) ^ d2.length

theorem matchNumber_wellformed (d1 d2 rest : Str) (h1 : ¬ d1 = [])
    (hd1 : ∀ c ∈ d1, c.isDigit = true)
    (hd2 : ∀ c ∈ d2, c.isDigit = true)
    (hrest : rest.head? = some ' ') :
    matchNumber (numberText d1 d2 ++ rest) =
      some (numberText d1 d2, rest) := by
  obtain ⟨rest', rfl⟩ : ∃ rest', rest = ' ' :: rest' := by
    cases rest with
    | nil => cases hrest
    | cons b rest' =>
        cases hrest
        exact ⟨rest', rfl⟩
  by_cases h2 : d2 = []
  · subst h2
    have hsplit := takeWhile_dropWhile_append (p := Char.isDigit) d1
      (' ' :: rest') hd1
      (fun c hc => by cases hc; decide)
    have hnt : numberText d1 [] = d1 := by simp [numberText]
    rw [hnt]
    unfold matchNumber
    simp only [hsplit.1, hsplit.2]
    simp [h1]
  · have hsplit := takeWhile_dropWhile_append (p := Char.isDigit) d1
      ('.' :: (d2 ++ ' ' :: rest')) hd1
      (fun c hc => by cases hc; decide)
    have hsplit2 := takeWhile_dropWhile_append (p := Char.isDigit) d2
      (' ' :: rest') hd2
      (fun c hc => by cases hc; decide)
    have harr : numberText d1 d2 ++ ' ' :: rest' =
        d1 ++ '.' :: (d2 ++ ' ' :: rest') := by
      simp [numberText, h2]
    rw [harr]
    unfold matchNumber
    simp only [hsplit.1, hsplit.2]
    have hd1e : d1.isEmpty = false := by
      cases d1
      · exact absurd rfl h1
      · rfl
    rw [hd1e]
    simp only [Bool.false_eq_true, if_false]
    simp only [hsplit2.1, hsplit2.2]
    have hd2e : d2.isEmpty = false := by
      cases d2
      · exact absurd rfl h2
      · rfl
    rw [hd2e]
    simp [numberText, h2]

theorem matchTail_sep (item : Str) (hnl : ¬ '\n' ∈ item)
    (hne : ¬ item.dropWhile isPySpace = []) :
    matchTail (' ' :: item) = some (item.dropWhile isPySpace) := by
  have hdw : (' ' :: item).dropWhile isPySpace =
      item.dropWhile isPySpace := by
    rw [List.dropWhile_cons]
    simp [show isPySpace ' ' = true from rfl]
  have htw : (' ' :: item).takeWhile isPySpace =
      ' ' :: item.takeWhile isPySpace := by
    rw [List.takeWhile_cons]
    simp [show isPySpace ' ' = true from rfl]
  have hany : (item.dropWhile isPySpace).any (fun c => c = '\n') = false := by
    rw [Bool.eq_false_iff]
    intro hc
    rw [List.any_eq_true] at hc
    obtain ⟨c, hc1, hc2⟩ := hc
    rw [decide_eq_true_eq] at hc2
    subst hc2
    exact hnl ((List.dropWhile_sublist isPySpace).subset hc1)
  unfold matchTail
  simp only [hdw, htw]
  rw [hany]
  simp [hne]

/-- The unit words of claim C6: the word alternatives of the first
pattern (not the abbreviations `lb`, `lbs`, `g`, `kg`, `oz`), singular
and plural. -/
def recognizedUnitWords : List Str :=
  [("cup".toList), ("cups".toList), ("tablespoon".toList),
   ("tablespoons".toList), ("teaspoon".toList), ("teaspoons".toList),
   ("pound".toList), ("pounds".toList), ("gram".toList),
   ("grams".toList), ("kilogram".toList), ("kilograms".toList),
   ("ounce".toList), ("ounces".toList), ("piece".toList),
   ("pieces".toList), ("clove".toList), ("cloves".toList),
   ("bottle".toList), ("bottles".toList), ("can".toList),
   ("cans".toList), ("packet".toList), ("packets".toList),
   ("bunch".toList), ("bunches".toList), ("head".toList),
   ("heads".toList)]

/-- A recognized unit word starts with a non-whitespace character, so the
greedy `\s*` before it consumes exactly the separator. -/
theorem units_head_keeps (u : Str) (hu : u ∈ recognizedUnitWords)
    (tail : Str) : (u ++ tail).dropWhile isPySpace = u ++ tail := by
  fin_cases hu <;>
    simp +decide [List.cons_append, List.dropWhile_cons]

/-- On `"<unit> <item>"` the alternation matches exactly the unit word:
every other alternative fails on a concrete character of the unit or on
the separator space, and the matching stem continues into `\s+(.+)$`.
The word `bunch` is the one word matched only by the second pattern
(the first pattern's alternative is `bunches?`, stem `bunche`). -/
theorem matchUnits_recognized (u : Str) (hu : u ∈ recognizedUnitWords)
    (item it0 : Str) (ht : matchTail (' ' :: item) = some it0) :
    matchUnits unitAlts1 (u ++ ' ' :: item) = some (u, it0) ∨
    (matchUnits unitAlts1 (u ++ ' ' :: item) = none ∧
     matchUnits unitAlts2 (u ++ ' ' :: item) = some (u, it0)) := by
  fin_cases hu <;>
    first
      | (apply Or.inl
         simp +decide [unitAlts1, matchUnits, matchUnitAlt,
           stripPrefixCI, ht]
         done)
      | (apply Or.inr
         constructor <;>
           simp +decide [unitAlts1, unitAlts2, matchUnits, matchUnitAlt,
             stripPrefixCI, ht])

theorem floatOfMatch_numberText (d1 d2 : Str) (h1 : ¬ d1 = [])
    (hd1 : ∀ c ∈ d1, c.isDigit = true)
    (hd2 : ∀ c ∈ d2, c.isDigit = true) :
    floatOfMatch (numberText d1 d2) = decimalValue d1 d2 := by
  by_cases h2 : d2 = []
  · subst h2
    have hsplit := takeWhile_dropWhile_append (p := Char.isDigit) d1 []
      hd1 (fun c hc => by cases hc)
    have hnt : numberText d1 [] = d1 := by simp [numberText]
    have h1' : d1.takeWhile Char.isDigit = d1 := by simpa using hsplit.1
    have h2' : d1.dropWhile Char.isDigit = [] := by simpa using hsplit.2
    rw [hnt]
    unfold floatOfMatch
    simp only [h1', h2']
    simp [decimalValue, digitsToNat]
  · have harr : numberText d1 d2 = d1 ++ '.' :: d2 := by
      simp [numberText, h2]
    have hsplit := takeWhile_dropWhile_append (p := Char.isDigit) d1
      ('.' :: d2) hd1 (fun c hc => by cases hc; decide)
    rw [harr]
    unfold floatOfMatch
    simp only [hsplit.1, hsplit.2]
    simp [decimalValue]

/-- Claim C6: on every phrase `"<number> <unit> <item>"` whose unit is a
recognized unit word, the parser returns the exact decimal value as
quantity, the unit word (the match lower-cased), and the item after the
source's clean-up (parentheticals removed, whitespace collapsed); in
particular `"2 cups flattened rice (poha)"` parses to
`{item: "flattened rice", quantity: 2, unit: "cups"}`. -/
theorem c6_parses_number_unit_item :
    (∀ d1 d2 u item : Str,
      ¬ d1 = [] →
      (∀ c ∈ d1, c.isDigit = true) →
      (∀ c ∈ d2, c.isDigit = true) →
      u ∈ recognizedUnitWords →
      ¬ item = [] →
      (∀ c, item.getLast? = some c → isPySpace c = false) →
      ¬ '\n' ∈ item →
      parse_ingredient_string
          (numberText d1 d2 ++ ' ' :: u ++ ' ' :: item) =
        ⟨cleanupItem item, decimalValue d1 d2, u⟩) ∧
    parse_ingredient_string ("2 cups flattened rice (poha)".toList) =
      ⟨("flattened rice".toList), 2, ("cups".toList)⟩ := by
  refine ⟨?_, by decide⟩
  intro d1 d2 u item h1 hd1 hd2 hu hine hil hnl
  have hstrip : pyStrip (numberText d1 d2 ++ ' ' :: u ++ ' ' :: item) =
      numberText d1 d2 ++ ' ' :: u ++ ' ' :: item := by
    apply pyStrip_eq_self
    · intro c hc
      obtain ⟨a, d1', rfl⟩ : ∃ a d1', d1 = a :: d1' := by
        cases d1 with
        | nil => exact absurd rfl h1
        | cons a d1' => exact ⟨a, d1', rfl⟩
      rw [show (numberText (a :: d1') d2 ++ ' ' :: u ++ ' ' :: item).head?
          = some a from by simp [numberText]] at hc
      injection hc with hac
      subst hac
      exact isPySpace_eq_false_of_isDigit a
        (hd1 a (List.mem_cons_self a d1'))
    · intro c hc
      have hlast : (numberText d1 d2 ++ ' ' :: u ++ ' ' :: item).getLast?
          = item.getLast? := by
        rw [show (numberText d1 d2 ++ ' ' :: u ++ ' ' :: item : Str) =
            ((numberText d1 d2 ++ (' ' :: u)) ++ [' ']) ++ item
            from by simp]
        rw [List.getLast?_append_of_ne_nil _ hine]
      rw [hlast] at hc
      exact hil c hc
  have hnum := matchNumber_wellformed d1 d2 ((' ' :: u) ++ (' ' :: item))
    h1 hd1 hd2 rfl
  have hne2 : ¬ item.dropWhile isPySpace = [] := by
    intro h
    have hall := List.dropWhile_eq_nil_iff.mp h
    obtain ⟨c, hc⟩ :=
      Option.isSome_iff_exists.mp (List.getLast?_isSome.mpr hine)
    have hsp := hall c (List.mem_of_mem_getLast? hc)
    rw [hil c hc] at hsp
    cases hsp
  have ht := matchTail_sep item hnl hne2
  have hdrop : ((' ' :: u) ++ (' ' :: item)).dropWhile isPySpace =
      u ++ ' ' :: item := by
    rw [show ((' ' :: u) ++ (' ' :: item) : Str) =
        ' ' :: (u ++ ' ' :: item) from rfl]
    rw [List.dropWhile_cons]
    simp only [show isPySpace ' ' = true from rfl, if_true]
    exact units_head_keeps u hu (' ' :: item)
  have hassoc : (numberText d1 d2 ++ ' ' :: u ++ ' ' :: item : Str) =
      numberText d1 d2 ++ ((' ' :: u) ++ (' ' :: item)) := by
    simp [List.append_assoc]
  rcases matchUnits_recognized u hu item _ ht with hu1 | ⟨hu1, hu2⟩
  · simp only [parse_ingredient_string]
    rw [hstrip, hassoc]
    simp only [matchPattern, hnum, hdrop, hu1, cleanupItem_dropWhile,
      floatOfMatch_numberText d1 d2 h1 hd1 hd2]
  · simp only [parse_ingredient_string]
    rw [hstrip, hassoc]
    simp only [matchPattern, hnum, hdrop, hu1, hu2, cleanupItem_dropWhile,
      floatOfMatch_numberText d1 d2 h1 hd1 hd2]

/-- Witness for C6, on the spec's example split into its parts. -/
theorem c6_parses_number_unit_item_witness :
    parse_ingredient_string
        (numberText ['2'] [] ++ ' ' :: ("cups".toList) ++ ' ' ::
          ("flattened rice (poha)".toList)) =
      ⟨cleanupItem ("flattened rice (poha)".toList),
        decimalValue ['2'] [], ("cups".toList)⟩ :=
  c6_parses_number_unit_item.1 ['2'] [] ("cups".toList)
    ("flattened rice (poha)".toList)
    (by decide) (by decide) (by decide) (by decide) (by decide)
    (by intro c hc; cases hc; decide) (by decide)

end MealPlan
